import Mathlib

/-!
Shallow embedding of `prog/weave-npc/main.go` (weave network policy
controller): the iptables/ipset bootstrap (`resetIPTables`, `resetIPSets`),
the base-rule installer (`createBaseRules`), the chain reconciler
(`addChainWithRules`), the set existence probe (`ipsetExist`) and the
watch-event delete dispatchers.

The external iptables/ipset command backends are modelled as an abstract
world (chains mapped to ordered rule lists, sets mapped to member lists)
plus a `Backend` of failure switches, so that error propagation can be
stated.  Every operation issued is recorded in a trace.
-/

set_option autoImplicit false

namespace WeaveNPC

/-- A rule is its ordered list of match/action tokens (Go `[]string`). -/
abbrev Rule := List String

/-- Modelled from the spec: the `npc` package constants (not under `src/`);
the filter table name. -/
def TableFilter : String := "filter"

/-- Modelled from the spec: the `npc` package main chain name. -/
def MainChain : String := "WEAVE-NPC"

/-- Modelled from the spec: the `npc` package ingress chain name. -/
def IngressChain : String := "WEAVE-NPC-INGRESS"

/-- Modelled from the spec: the `npc` package default chain name. -/
def DefaultChain : String := "WEAVE-NPC-DEFAULT"

/-- Modelled from the spec: the `npc` package egress chain name. -/
def EgressChain : String := "WEAVE-NPC-EGRESS"

/-- Modelled from the spec: the `npc` package egress mark chain name. -/
def EgressMarkChain : String := "WEAVE-NPC-EGRESS-MARK"

/-- Modelled from the spec: the `npc` package egress custom chain name. -/
def EgressCustomChain : String := "WEAVE-NPC-EGRESS-CUSTOM"

/-- Modelled from the spec: the `npc` package egress default chain name. -/
def EgressDefaultChain : String := "WEAVE-NPC-EGRESS-DEFAULT"

/-- Modelled from the spec: the reserved name tag of sets owned by this
system (`npc.IpsetNamePrefix`). -/
def IpsetNamePrefix : String := "weave-"

/-- Modelled from the spec: the local-pods baseline set name
(`npc.LocalIpset`, the reserved tag followed by "local-pods"). -/
def LocalIpset : String := IpsetNamePrefix ++ "local-pods"

/-- Modelled from the spec: the reserved egress mark value
(`npc.EgressMark`). -/
def EgressMark : String := "0x40000/0x40000"

/-- One command issued against the packet-filter / named-set backend. -/
inductive Op where
  | clearChain (table chain : String)
  | newChain (table chain : String)
  | listRules (table chain : String)
  | appendRule (table chain : String) (rule : Rule)
  | listSets (pfx : String)
  | flushSet (name : String)
  | destroySet (name : String)
  | createSet (name : String)
  deriving DecidableEq

/-- Errors of the backend operations, plus the context wrapping performed by
`errors.Wrapf` in `addChainWithRules`. -/
inductive Err where
  | clearErr (table chain : String)
  | newChainErr (table chain : String)
  | newChainExists (table chain : String)
  | listErr (table chain : String)
  | noChain (table chain : String)
  | appendErr (table chain : String) (rule : Rule)
  | listSetsErr
  | noSet (name : String)
  | flushErr (name : String)
  | destroyErr (name : String)
  | createErr (name : String)
  | setExists (name : String)
  | wrapped (ctx : String) (e : Err)
  deriving DecidableEq

deriving instance DecidableEq for Except

/-- Association-list lookup (first entry with the given key). -/
def alookup {κ ν : Type} [DecidableEq κ] : List (κ × ν) → κ → Option ν
  | [], _ => none
  | e :: es, k => if e.1 = k then some e.2 else alookup es k

/-- Association-list update: replaces the first entry with the given key, or
appends a new entry when the key is absent. -/
def aset {κ ν : Type} [DecidableEq κ] : List (κ × ν) → κ → ν → List (κ × ν)
  | [], k, v => [(k, v)]
  | e :: es, k, v => if e.1 = k then (k, v) :: es else e :: aset es k v

/-- Association-list removal of every entry with the given key. -/
def aerase {κ ν : Type} [DecidableEq κ] : List (κ × ν) → κ → List (κ × ν)
  | [], _ => []
  | e :: es, k => if e.1 = k then aerase es k else e :: aerase es k

/-- The abstract state of the node's packet-filter tooling: each existing
chain's ordered rule list, keyed by (table, chain), and each existing named
set's member list. -/
structure World where
  chains : List ((String × String) × List Rule)
  sets : List (String × List String)
  deriving DecidableEq

/-- Rule list of a chain, `none` when the chain does not exist. -/
def lookupChain (w : World) (t c : String) : Option (List Rule) :=
  alookup w.chains (t, c)

/-- Names of all existing sets, in creation order. -/
def setNames (w : World) : List String := w.sets.map Prod.fst

/-- Whether a named set exists. -/
def setMembers (w : World) (s : String) : Option (List String) :=
  alookup w.sets s

/-- Whether a named set exists. -/
def setLives (w : World) (s : String) : Bool :=
  (setMembers w s).isSome

/-- Failure switches of the external backend: which commands fail, modelling
the error returns of the iptables/ipset wrappers. -/
structure Backend where
  clearFails : String → String → Bool
  newChainFails : String → String → Bool
  listFails : String → String → Bool
  appendFails : String → String → Rule → Bool
  listSetsFails : Bool
  flushFails : String → Bool
  destroyFails : String → Bool
  createFails : String → Bool

/-- A backend on which no command fails for external reasons. -/
def cleanBackend : Backend where
  clearFails := fun _ _ => false
  newChainFails := fun _ _ => false
  listFails := fun _ _ => false
  appendFails := fun _ _ _ => false
  listSetsFails := false
  flushFails := fun _ => false
  destroyFails := fun _ => false
  createFails := fun _ => false

/-- The effect monad of the embedded programs: a state/trace transformer
that returns the Go function's error-or-value result, the final world, and
the list of backend commands issued (in order). -/
def M (α : Type) : Type := World → Except Err α × World × List Op

namespace M

def pureM {α : Type} (a : α) : M α := fun w => (Except.ok a, w, [])

def bind {α β : Type} (x : M α) (f : α → M β) : M β := fun w =>
  match x w with
  | (Except.ok a, w1, t1) =>
    match f a w1 with
    | (r, w2, t2) => (r, w2, t1 ++ t2)
  | (Except.error e, w1, t1) => (Except.error e, w1, t1)

instance : Monad M where
  pure := pureM
  bind := bind

/-- The Go result (error or value). -/
def res {α : Type} (x : M α) (w : World) : Except Err α := (x w).1

/-- The final backend state. -/
def world {α : Type} (x : M α) (w : World) : World := (x w).2.1

/-- The commands issued, in order. -/
def trace {α : Type} (x : M α) (w : World) : List Op := (x w).2.2

end M

/-- `iptables.ClearChain`: empties the chain's rules, creating the chain if
absent; fails only when the backend makes it fail. -/
def clearChain (b : Backend) (t c : String) : M Unit := fun w =>
  if b.clearFails t c then (Except.error (Err.clearErr t c), w, [Op.clearChain t c])
  else (Except.ok (), { w with chains := aset w.chains (t, c) [] }, [Op.clearChain t c])

/-- `iptables.NewChain`: creates an empty chain; fails when the chain
already exists or when the backend makes it fail. -/
def newChain (b : Backend) (t c : String) : M Unit := fun w =>
  if b.newChainFails t c then (Except.error (Err.newChainErr t c), w, [Op.newChain t c])
  else
    match lookupChain w t c with
    | some _ => (Except.error (Err.newChainExists t c), w, [Op.newChain t c])
    | none => (Except.ok (), { w with chains := aset w.chains (t, c) [] }, [Op.newChain t c])

/-- Renders a rule as iptables does: its tokens joined by single spaces. -/
def renderRule (r : Rule) : String := String.intercalate " " r

/-- `iptables -S` output for a chain: the implicit chain declaration entry
followed by each rule's rendered token sequence; fails when the chain does
not exist or the backend makes it fail. -/
def listRules (b : Backend) (t c : String) : M (List String) := fun w =>
  if b.listFails t c then (Except.error (Err.listErr t c), w, [Op.listRules t c])
  else
    match lookupChain w t c with
    | some rs => (Except.ok (("-N " ++ c) :: rs.map renderRule), w, [Op.listRules t c])
    | none => (Except.error (Err.noChain t c), w, [Op.listRules t c])

/-- `iptables.Append`: appends one rule at the end of the chain; fails when
the chain does not exist or the backend makes it fail. -/
def appendRule (b : Backend) (t c : String) (r : Rule) : M Unit := fun w =>
  if b.appendFails t c r then (Except.error (Err.appendErr t c r), w, [Op.appendRule t c r])
  else
    match lookupChain w t c with
    | some rs =>
      (Except.ok (), { w with chains := aset w.chains (t, c) (rs ++ [r]) }, [Op.appendRule t c r])
    | none => (Except.error (Err.noChain t c), w, [Op.appendRule t c r])

/-- Whether `p` is an initial segment of `s`, computed on the character
lists. -/
def hasPfx (p s : String) : Bool := go p.data s.data
where
  go : List Char → List Char → Bool
    | [], _ => true
    | _ :: _, [] => false
    | a :: ps, c :: cs => a = c && go ps cs

/-- `ipset.List(pfx)`: the names of all existing sets whose name starts with
the given tag. -/
def listSets (b : Backend) (pfx : String) : M (List String) := fun w =>
  if b.listSetsFails then (Except.error Err.listSetsErr, w, [Op.listSets pfx])
  else (Except.ok ((setNames w).filter (hasPfx pfx)), w, [Op.listSets pfx])

/-- `ipset.Flush`: empties a set's members; fails when the set does not
exist or the backend makes it fail. -/
def flushSet (b : Backend) (s : String) : M Unit := fun w =>
  if b.flushFails s then (Except.error (Err.flushErr s), w, [Op.flushSet s])
  else if setLives w s then
    (Except.ok (), { w with sets := aset w.sets s [] }, [Op.flushSet s])
  else (Except.error (Err.noSet s), w, [Op.flushSet s])

/-- `ipset.Destroy`: removes a set; fails when the set does not exist or the
backend makes it fail. -/
def destroySet (b : Backend) (s : String) : M Unit := fun w =>
  if b.destroyFails s then (Except.error (Err.destroyErr s), w, [Op.destroySet s])
  else if setLives w s then
    (Except.ok (), { w with sets := aerase w.sets s }, [Op.destroySet s])
  else (Except.error (Err.noSet s), w, [Op.destroySet s])

/-- `ipset.Create`: creates an empty set; fails when the set already exists
or the backend makes it fail. -/
def createSet (b : Backend) (s : String) : M Unit := fun w =>
  if b.createFails s then (Except.error (Err.createErr s), w, [Op.createSet s])
  else if setLives w s then (Except.error (Err.setExists s), w, [Op.createSet s])
  else (Except.ok (), { w with sets := w.sets ++ [(s, [])] }, [Op.createSet s])

/-- `resetIPTables`: clears the six static chains in source order, returning
the first error; the Egress chain is deliberately not cleared. -/
def resetIPTables (b : Backend) : M Unit := do
  clearChain b TableFilter IngressChain
  clearChain b TableFilter DefaultChain
  clearChain b TableFilter MainChain
  clearChain b TableFilter EgressMarkChain
  clearChain b TableFilter EgressCustomChain
  clearChain b TableFilter EgressDefaultChain

/-- The first loop of `resetIPSets`: flush every listed set, returning the
first error. -/
def flushAll (b : Backend) : List String → M Unit
  | [] => pure ()
  | s :: rest => do
    flushSet b s
    flushAll b rest

/-- The second loop of `resetIPSets`: destroy every listed set except the
local-pods set, returning the first error. -/
def destroyAllButLocal (b : Backend) : List String → M Unit
  | [] => pure ()
  | s :: rest =>
    if s = LocalIpset then destroyAllButLocal b rest
    else do
      destroySet b s
      destroyAllButLocal b rest

/-- `resetIPSets`: lists the sets carrying the reserved tag, flushes all of
them, then destroys all of them except the local-pods set. -/
def resetIPSets (b : Backend) : M Unit := do
  let sets ← listSets b IpsetNamePrefix
  flushAll b sets
  destroyAllButLocal b sets

/-- The bootstrap sequence run by `root` before anything else:
`resetIPTables` then `resetIPSets`, each failure being fatal (so nothing
runs after the first error). -/
def bootstrap (b : Backend) : M Unit := do
  resetIPTables b
  resetIPSets b

/-- `_ = ipt.NewChain(...)`: run an action and discard its error. -/
def ignoreErr {α : Type} (x : M α) : M Unit := fun w =>
  match x w with
  | (_, w1, t1) => (Except.ok (), w1, t1)

/-- `errors.Wrapf`: wrap the error of an action with a context string. -/
def wrapErr {α : Type} (ctx : String) (x : M α) : M α := fun w =>
  match x w with
  | (Except.error e, w1, t1) => (Except.error (Err.wrapped ctx e), w1, t1)
  | r => r

/-- The desired rules joined exactly as `addChainWithRules` joins them: each
rule's tokens joined by spaces, rules joined by newlines. -/
def renderRules (rs : List Rule) : String :=
  String.intercalate "\x0a" (rs.map renderRule)

/-- The append loop of `addChainWithRules`, wrapping each append error with
its table/chain/rule context. -/
def appendAllWrapped (b : Backend) (t c : String) : List Rule → M Unit
  | [] => pure ()
  | r :: rest => do
    wrapErr ("iptables -A. table: " ++ t ++ ", chain: " ++ c ++ ", rule: " ++ renderRule r)
      (appendRule b t c r)
    appendAllWrapped b t c rest

/-- `addChainWithRules`: creates the chain ignoring any error, lists the
current rules (first returned entry, the chain declaration, dropped),
compares the joined current rules against the joined desired rules as text,
and when they differ appends the desired rules without clearing first. -/
def addChainWithRules (b : Backend) (table chain : String) (rulespecs : List Rule) : M Unit := do
  ignoreErr (newChain b table chain)
  let currRuleSpecs ← wrapErr ("iptables -S. table: " ++ table ++ ", chain: " ++ chain)
    (listRules b table chain)
  let currRules := String.intercalate "\x0a" (currRuleSpecs.drop 1)
  let reqRules := renderRules rulespecs
  if currRules = reqRules then
    pure ()
  else
    appendAllWrapped b table chain rulespecs

/-- `ipsetExist`: lists the sets whose name starts with the probed name and
returns whether one of them is exactly the probed name. -/
def ipsetExist (b : Backend) (name : String) : M Bool := do
  let sets ← listSets b name
  pure (sets.any (fun s => s = name))

/-- The egress rule list built in `createBaseRules` when not in legacy
mode. -/
def egressRuleSpecs (allowMcast : Bool) : List Rule :=
  [["-m", "state", "--state", "RELATED,ESTABLISHED", "-j", "RETURN"],
   ["-m", "state", "--state", "NEW", "-m", "set", "!", "--match-set", LocalIpset, "src", "-j", "RETURN"]]
  ++ (if allowMcast then [["-d", "224.0.0.0/4", "-j", "RETURN"]] else [])
  ++ [["-m", "state", "--state", "NEW", "-j", EgressDefaultChain],
      ["-m", "state", "--state", "NEW", "-m", "mark", "!", "--mark", EgressMark, "-j", EgressCustomChain],
      ["-m", "state", "--state", "NEW", "-m", "mark", "!", "--mark", EgressMark, "-j", "NFLOG", "--nflog-group", "86"],
      ["-m", "mark", "!", "--mark", EgressMark, "-j", "DROP"]]

/-- `createBaseRules`: installs the static main-chain rules (the multicast
accept only under the flag), ensures the local-pods set exists before the
final accept rule references it, and, when not in legacy mode, installs the
egress mark rule and reconciles the Egress chain. -/
def createBaseRules (b : Backend) (allowMcast legacy : Bool) : M Unit := do
  appendRule b TableFilter MainChain
    ["-m", "state", "--state", "RELATED,ESTABLISHED", "-j", "ACCEPT"]
  if allowMcast then
    appendRule b TableFilter MainChain ["-d", "224.0.0.0/4", "-j", "ACCEPT"]
  appendRule b TableFilter MainChain ["-m", "state", "--state", "NEW", "-j", DefaultChain]
  appendRule b TableFilter MainChain ["-m", "state", "--state", "NEW", "-j", IngressChain]
  let found ← ipsetExist b LocalIpset
  if !found then
    createSet b LocalIpset
  appendRule b TableFilter MainChain
    ["-m", "set", "!", "--match-set", LocalIpset, "dst", "-j", "ACCEPT"]
  if !legacy then
    appendRule b TableFilter EgressMarkChain ["-j", "MARK", "--set-xmark", EgressMark]
    addChainWithRules b TableFilter EgressChain (egressRuleSpecs allowMcast)

/-- A runtime value as seen by a watch-event handler (`interface\x7b\x7d` in Go):
a live Namespace, Pod or NetworkPolicy object, a final-state-unknown
tombstone wrapping another value, or a value of some unrelated type. -/
inductive KObj where
  | ns (name : String)
  | pod (name : String)
  | netpol (name : String)
  | tombstone (inner : KObj)
  | other (tag : String)
  deriving DecidableEq

/-- A Delete call made on the policy engine by the dispatchers. -/
inductive EngineCall where
  | deleteNamespace (o : KObj)
  | deletePod (o : KObj)
  | deleteNetworkPolicy (o : KObj)
  deriving DecidableEq

/-- The Namespace controller's DeleteFunc: a live Namespace is deleted as
is; a tombstone has its wrapped value type-asserted to a Namespace (`none`
models the panic of a failed assertion) and deleted; any other payload
falls through the switch without any call. -/
def nsDeleteFunc : KObj → Option (List EngineCall)
  | KObj.ns n => some [EngineCall.deleteNamespace (KObj.ns n)]
  | KObj.tombstone inner =>
    match inner with
    | KObj.ns n => some [EngineCall.deleteNamespace (KObj.ns n)]
    | _ => none
  | _ => some []

/-- The Pod controller's DeleteFunc, same shape as the Namespace one. -/
def podDeleteFunc : KObj → Option (List EngineCall)
  | KObj.pod n => some [EngineCall.deletePod (KObj.pod n)]
  | KObj.tombstone inner =>
    match inner with
    | KObj.pod n => some [EngineCall.deletePod (KObj.pod n)]
    | _ => none
  | _ => some []

/-- The NetworkPolicy handlers' DeleteFunc: a tombstone's wrapped value is
passed to DeleteNetworkPolicy without any type assertion; every other
payload is forwarded unchanged by the default case. -/
def npDeleteFunc : KObj → Option (List EngineCall)
  | KObj.tombstone inner => some [EngineCall.deleteNetworkPolicy inner]
  | o => some [EngineCall.deleteNetworkPolicy o]

/-- The two NetworkPolicy watch API shapes. -/
inductive NPApiShape where
  | extensionsV1beta1
  | networkingV1
  deriving DecidableEq

/-- The NetworkPolicy watch shape selected in `root`: the legacy extensions
API when the legacy flag is set, the stable networking API otherwise. -/
def npWatchShape (legacy : Bool) : NPApiShape :=
  if legacy then NPApiShape.extensionsV1beta1 else NPApiShape.networkingV1

/-- The six chains cleared by `resetIPTables`, in source order. -/
def sixChains : List String :=
  [IngressChain, DefaultChain, MainChain, EgressMarkChain, EgressCustomChain, EgressDefaultChain]

/-- The clear commands issued by a fully successful `resetIPTables`. -/
def sixClears : List Op := sixChains.map (Op.clearChain TableFilter)

/-- The world right after a successful bootstrap on a node where the Egress
chain does not yet exist: the six static chains exist and are empty, and
the local-pods set exists (empty) or not according to the flag. -/
def baseWorld (localLives : Bool) : World where
  chains := sixChains.map (fun c => ((TableFilter, c), []))
  sets := if localLives then [(LocalIpset, [])] else []

/-- The main-chain rule list required after `createBaseRules`, the multicast
accept present exactly under the flag. -/
def expectedMainRules (allowMcast : Bool) : List Rule :=
  [["-m", "state", "--state", "RELATED,ESTABLISHED", "-j", "ACCEPT"]]
  ++ (if allowMcast then [["-d", "224.0.0.0/4", "-j", "ACCEPT"]] else [])
  ++ [["-m", "state", "--state", "NEW", "-j", DefaultChain],
      ["-m", "state", "--state", "NEW", "-j", IngressChain],
      ["-m", "set", "!", "--match-set", LocalIpset, "dst", "-j", "ACCEPT"]]

/-- The chain named by a chain-directed command, `none` for set commands. -/
def opChain : Op → Option String
  | Op.clearChain _ c => some c
  | Op.newChain _ c => some c
  | Op.listRules _ c => some c
  | Op.appendRule _ c _ => some c
  | _ => none

/-- Whether a command is an append. -/
def isAppendOp : Op → Bool
  | Op.appendRule _ _ _ => true
  | _ => false

/-- Whether a command is a set flush. -/
def isFlushOp : Op → Bool
  | Op.flushSet _ => true
  | _ => false

/-- Whether no flush command occurs after a destroy command in a trace. -/
def flushesFirst : List Op → Bool
  | [] => true
  | Op.destroySet _ :: rest => rest.all (fun op => !isFlushOp op)
  | _ :: rest => flushesFirst rest

/-- Whether an error is (possibly under wrapping) a chain-creation error. -/
def Err.fromCreate : Err → Bool
  | Err.newChainErr _ _ => true
  | Err.newChainExists _ _ => true
  | Err.wrapped _ e => e.fromCreate
  | _ => false

/-- Whether a command touches one of the four egress chains. -/
def touchesEgressPipeline (op : Op) : Bool :=
  match opChain op with
  | some c => [EgressMarkChain, EgressCustomChain, EgressDefaultChain, EgressChain].contains c
  | none => false

/-- The last rule installed into the main chain: accept traffic whose
destination is not a local pod. -/
def acceptNonLocalDst : Rule :=
  ["-m", "set", "!", "--match-set", LocalIpset, "dst", "-j", "ACCEPT"]

/-- C3: for every delete event carrying a final-state-unknown tombstone
wrapping a last-known object value, the dispatcher calls the corresponding
Delete method with exactly that wrapped value — the call is never skipped
and never made with a default object. -/
theorem tombstone_recovery_calls_delete_with_wrapped_value :
    (∀ n, nsDeleteFunc (KObj.tombstone (KObj.ns n)) =
      some [EngineCall.deleteNamespace (KObj.ns n)]) ∧
    (∀ n, podDeleteFunc (KObj.tombstone (KObj.pod n)) =
      some [EngineCall.deletePod (KObj.pod n)]) ∧
    (∀ o, npDeleteFunc (KObj.tombstone o) =
      some [EngineCall.deleteNetworkPolicy o]) :=
  ⟨fun _ => rfl, fun _ => rfl, fun _ => rfl⟩

/-- C9: a Namespace or Pod delete payload that is neither the live object
type nor a tombstone produces no Delete call at all, while a NetworkPolicy
delete forwards every non-tombstone payload unchanged to
DeleteNetworkPolicy. -/
theorem delete_dispatch_type_filtering :
    (∀ o : KObj, (∀ n, o ≠ KObj.ns n) → (∀ i, o ≠ KObj.tombstone i) →
      nsDeleteFunc o = some []) ∧
    (∀ o : KObj, (∀ n, o ≠ KObj.pod n) → (∀ i, o ≠ KObj.tombstone i) →
      podDeleteFunc o = some []) ∧
    (∀ o : KObj, (∀ i, o ≠ KObj.tombstone i) →
      npDeleteFunc o = some [EngineCall.deleteNetworkPolicy o]) := by
  refine ⟨fun o h1 h2 => ?_, fun o h1 h2 => ?_, fun o h1 => ?_⟩ <;>
    cases o <;> first
      | rfl
      | exact absurd rfl (h1 _)
      | exact absurd rfl (h2 _)

/-- Witness for C9 at concrete payloads: a Pod value reaching the Namespace
dispatcher is dropped, an unrelated value reaching the Pod dispatcher is
dropped, and a live Pod value reaching the NetworkPolicy dispatcher is
forwarded unchanged. -/
theorem delete_dispatch_type_filtering_witness :
    nsDeleteFunc (KObj.pod "p") = some [] ∧
    podDeleteFunc (KObj.other "x") = some [] ∧
    npDeleteFunc (KObj.pod "p") = some [EngineCall.deleteNetworkPolicy (KObj.pod "p")] :=
  ⟨delete_dispatch_type_filtering.1 (KObj.pod "p")
      (fun _ h => KObj.noConfusion h) (fun _ h => KObj.noConfusion h),
   delete_dispatch_type_filtering.2.1 (KObj.other "x")
      (fun _ h => KObj.noConfusion h) (fun _ h => KObj.noConfusion h),
   delete_dispatch_type_filtering.2.2 (KObj.pod "p")
      (fun _ h => KObj.noConfusion h)⟩

/-- C4: after `createBaseRules` runs on the post-bootstrap world (empty
Main chain), the Main chain contains exactly, in order: the
established/related accept, the multicast accept exactly when the flag is
set, the NEW jump to the Default chain, the NEW jump to the Ingress chain,
and the accept for destinations outside the local-pods set; the local-pods
set exists afterwards, its existence is probed before that last rule is
appended, and when it was absent it is created before that rule is
appended. -/
theorem createBaseRules_main_chain_exact (allowMcast legacy localLives : Bool) :
    lookupChain (M.world (createBaseRules cleanBackend allowMcast legacy) (baseWorld localLives))
        TableFilter MainChain = some (expectedMainRules allowMcast) ∧
    setLives (M.world (createBaseRules cleanBackend allowMcast legacy) (baseWorld localLives))
        LocalIpset = true ∧
    Op.listSets LocalIpset ∈
      M.trace (createBaseRules cleanBackend allowMcast legacy) (baseWorld localLives) ∧
    Op.appendRule TableFilter MainChain acceptNonLocalDst ∈
      M.trace (createBaseRules cleanBackend allowMcast legacy) (baseWorld localLives) ∧
    (M.trace (createBaseRules cleanBackend allowMcast legacy) (baseWorld localLives)).indexOf
        (Op.listSets LocalIpset) <
      (M.trace (createBaseRules cleanBackend allowMcast legacy) (baseWorld localLives)).indexOf
        (Op.appendRule TableFilter MainChain acceptNonLocalDst) ∧
    (localLives = false →
      Op.createSet LocalIpset ∈
        M.trace (createBaseRules cleanBackend allowMcast legacy) (baseWorld localLives) ∧
      (M.trace (createBaseRules cleanBackend allowMcast legacy) (baseWorld localLives)).indexOf
          (Op.createSet LocalIpset) <
        (M.trace (createBaseRules cleanBackend allowMcast legacy) (baseWorld localLives)).indexOf
          (Op.appendRule TableFilter MainChain acceptNonLocalDst)) := by
  cases allowMcast <;> cases legacy <;> cases localLives <;> decide

/-- Witness for C4 at a concrete input: multicast on, legacy off, local-pods
set initially absent. -/
theorem createBaseRules_main_chain_exact_witness :
    lookupChain (M.world (createBaseRules cleanBackend true false) (baseWorld false))
        TableFilter MainChain = some (expectedMainRules true) ∧
    Op.createSet LocalIpset ∈
      M.trace (createBaseRules cleanBackend true false) (baseWorld false) :=
  ⟨(createBaseRules_main_chain_exact true false false).1,
   ((createBaseRules_main_chain_exact true false false).2.2.2.2.2 rfl).1⟩

/-- C8: with the legacy flag set, `createBaseRules` issues no command
touching the EgressMark, EgressCustom, EgressDefault or Egress chains and
leaves them as they were, and the NetworkPolicy watch uses the legacy
extensions API shape; with the flag unset, the egress pipeline is built
(the mark rule and the reconciled Egress rule list) and the stable
networking API shape is used. -/
theorem legacy_flag_behaviour (allowMcast localLives : Bool) :
    (M.trace (createBaseRules cleanBackend allowMcast true) (baseWorld localLives)).all
        (fun op => !touchesEgressPipeline op) = true ∧
    lookupChain (M.world (createBaseRules cleanBackend allowMcast true) (baseWorld localLives))
        TableFilter EgressMarkChain = lookupChain (baseWorld localLives) TableFilter EgressMarkChain ∧
    lookupChain (M.world (createBaseRules cleanBackend allowMcast true) (baseWorld localLives))
        TableFilter EgressCustomChain = lookupChain (baseWorld localLives) TableFilter EgressCustomChain ∧
    lookupChain (M.world (createBaseRules cleanBackend allowMcast true) (baseWorld localLives))
        TableFilter EgressDefaultChain = lookupChain (baseWorld localLives) TableFilter EgressDefaultChain ∧
    lookupChain (M.world (createBaseRules cleanBackend allowMcast true) (baseWorld localLives))
        TableFilter EgressChain = lookupChain (baseWorld localLives) TableFilter EgressChain ∧
    npWatchShape true = NPApiShape.extensionsV1beta1 ∧
    npWatchShape false = NPApiShape.networkingV1 ∧
    lookupChain (M.world (createBaseRules cleanBackend allowMcast false) (baseWorld localLives))
        TableFilter EgressMarkChain = some [["-j", "MARK", "--set-xmark", EgressMark]] ∧
    lookupChain (M.world (createBaseRules cleanBackend allowMcast false) (baseWorld localLives))
        TableFilter EgressChain = some (egressRuleSpecs allowMcast) := by
  cases allowMcast <;> cases localLives <;> decide

theorem alookup_aset_self {κ ν : Type} [DecidableEq κ] (l : List (κ × ν)) (k : κ) (v : ν) :
    alookup (aset l k v) k = some v := by
  induction l with
  | nil => simp [aset, alookup]
  | cons e es ih =>
    by_cases h : e.1 = k
    · simp [aset, alookup, h]
    · simp [aset, alookup, h, ih]

theorem alookup_aset_ne {κ ν : Type} [DecidableEq κ] (l : List (κ × ν)) (k k' : κ) (v : ν)
    (h : k' ≠ k) : alookup (aset l k v) k' = alookup l k' := by
  induction l with
  | nil => simp [aset, alookup, Ne.symm h]
  | cons e es ih =>
    by_cases he : e.1 = k
    · subst he
      simp [aset, alookup, Ne.symm h]
    · simp only [aset, if_neg he]
      by_cases he' : e.1 = k'
      · simp [alookup, he']
      · simp [alookup, he', ih]

theorem alookup_aerase_self {κ ν : Type} [DecidableEq κ] (l : List (κ × ν)) (k : κ) :
    alookup (aerase l k) k = none := by
  induction l with
  | nil => simp [aerase, alookup]
  | cons e es ih =>
    by_cases h : e.1 = k
    · simp [aerase, h, ih]
    · simp [aerase, alookup, h, ih]

theorem alookup_aerase_ne {κ ν : Type} [DecidableEq κ] (l : List (κ × ν)) (k k' : κ)
    (h : k' ≠ k) : alookup (aerase l k) k' = alookup l k' := by
  induction l with
  | nil => simp [aerase]
  | cons e es ih =>
    by_cases he : e.1 = k
    · subst he
      simp [aerase, alookup, Ne.symm h, ih]
    · simp only [aerase, if_neg he]
      by_cases he' : e.1 = k'
      · simp [alookup, he']
      · simp [alookup, he', ih]

theorem alookup_isSome_iff_mem {κ ν : Type} [DecidableEq κ] (l : List (κ × ν)) (k : κ) :
    (alookup l k).isSome = true ↔ k ∈ l.map Prod.fst := by
  induction l with
  | nil => simp [alookup]
  | cons e es ih =>
    by_cases h : e.1 = k
    · simp [alookup, h]
    · simp [alookup, h, ih, Ne.symm h]

theorem bind_ok {α β : Type} {x : M α} {f : α → M β} {w : World} {a : α} {w1 : World}
    {tr1 : List Op} (h : x w = (Except.ok a, w1, tr1)) :
    M.bind x f w = ((f a w1).1, (f a w1).2.1, tr1 ++ (f a w1).2.2) := by
  unfold M.bind
  rw [h]

theorem bind_err {α β : Type} {x : M α} {f : α → M β} {w : World} {e : Err} {w1 : World}
    {tr1 : List Op} (h : x w = (Except.error e, w1, tr1)) :
    M.bind x f w = (Except.error e, w1, tr1) := by
  unfold M.bind
  rw [h]

theorem bind_world_chains {α β : Type} {x : M α} {f : α → M β}
    (hx : ∀ w, (M.world x w).chains = w.chains)
    (hf : ∀ a w, (M.world (f a) w).chains = w.chains) :
    ∀ w, (M.world (M.bind x f) w).chains = w.chains := by
  intro w
  rcases hx1 : x w with ⟨r, w1, tr1⟩
  have hw1 : w1.chains = w.chains := by
    have hh := hx w
    simp only [M.world, hx1] at hh
    exact hh
  cases r with
  | ok a =>
    have h2 := bind_ok (f := f) hx1
    have hh := hf a w1
    simp only [M.world] at hh ⊢
    rw [h2]
    exact hh.trans hw1
  | error e =>
    simp only [M.world]
    rw [bind_err (f := f) hx1]
    exact hw1

theorem bind_lookup {α β : Type} {x : M α} {f : α → M β} {t c : String}
    (hx : ∀ w, lookupChain (M.world x w) t c = lookupChain w t c)
    (hf : ∀ a w, lookupChain (M.world (f a) w) t c = lookupChain w t c) :
    ∀ w, lookupChain (M.world (M.bind x f) w) t c = lookupChain w t c := by
  intro w
  rcases hx1 : x w with ⟨r, w1, tr1⟩
  have hw1 : lookupChain w1 t c = lookupChain w t c := by
    have hh := hx w
    simp only [M.world, hx1] at hh
    exact hh
  cases r with
  | ok a =>
    have h2 := bind_ok (f := f) hx1
    have hh := hf a w1
    simp only [M.world] at hh ⊢
    rw [h2]
    exact hh.trans hw1
  | error e =>
    simp only [M.world]
    rw [bind_err (f := f) hx1]
    exact hw1

theorem chains_eq_lookup {α : Type} {x : M α}
    (hx : ∀ w, (M.world x w).chains = w.chains) (t c : String) :
    ∀ w, lookupChain (M.world x w) t c = lookupChain w t c := by
  intro w
  simp only [lookupChain, hx w]

theorem resetIPTables_eq (b : Backend) :
    resetIPTables b =
      M.bind (clearChain b TableFilter IngressChain) (fun _ =>
      M.bind (clearChain b TableFilter DefaultChain) (fun _ =>
      M.bind (clearChain b TableFilter MainChain) (fun _ =>
      M.bind (clearChain b TableFilter EgressMarkChain) (fun _ =>
      M.bind (clearChain b TableFilter EgressCustomChain) (fun _ =>
      clearChain b TableFilter EgressDefaultChain))))) := rfl

theorem resetIPSets_eq (b : Backend) :
    resetIPSets b =
      M.bind (listSets b IpsetNamePrefix) (fun sets =>
      M.bind (flushAll b sets) (fun _ =>
      destroyAllButLocal b sets)) := rfl

theorem bootstrap_eq (b : Backend) :
    bootstrap b = M.bind (resetIPTables b) (fun _ => resetIPSets b) := rfl

theorem flushAll_cons (b : Backend) (s : String) (rest : List String) :
    flushAll b (s :: rest) = M.bind (flushSet b s) (fun _ => flushAll b rest) := rfl

theorem destroyAllButLocal_cons (b : Backend) (s : String) (rest : List String) :
    destroyAllButLocal b (s :: rest) =
      if s = LocalIpset then destroyAllButLocal b rest
      else M.bind (destroySet b s) (fun _ => destroyAllButLocal b rest) := rfl

theorem appendAllWrapped_cons (b : Backend) (t c : String) (r : Rule) (rest : List Rule) :
    appendAllWrapped b t c (r :: rest) =
      M.bind
        (wrapErr ("iptables -A. table: " ++ t ++ ", chain: " ++ c ++ ", rule: " ++ renderRule r)
          (appendRule b t c r))
        (fun _ => appendAllWrapped b t c rest) := rfl

theorem addChainWithRules_eq (b : Backend) (t c : String) (rs : List Rule) :
    addChainWithRules b t c rs =
      M.bind (ignoreErr (newChain b t c)) (fun _ =>
      M.bind (wrapErr ("iptables -S. table: " ++ t ++ ", chain: " ++ c) (listRules b t c))
        (fun currRuleSpecs =>
          if String.intercalate "\x0a" (currRuleSpecs.drop 1) = renderRules rs then
            M.pureM ()
          else appendAllWrapped b t c rs)) := rfl

theorem clearChain_lookup_ne (b : Backend) (t c t0 c0 : String) (hne : (t0, c0) ≠ (t, c)) :
    ∀ w, lookupChain (M.world (clearChain b t c) w) t0 c0 = lookupChain w t0 c0 := by
  intro w
  simp only [M.world, clearChain]
  split
  · rfl
  · simp only [lookupChain]
    exact alookup_aset_ne _ _ _ _ hne

theorem flushSet_chains (b : Backend) (s : String) :
    ∀ w, (M.world (flushSet b s) w).chains = w.chains := by
  intro w
  simp only [M.world, flushSet]
  split
  · rfl
  · split <;> rfl

theorem destroySet_chains (b : Backend) (s : String) :
    ∀ w, (M.world (destroySet b s) w).chains = w.chains := by
  intro w
  simp only [M.world, destroySet]
  split
  · rfl
  · split <;> rfl

theorem listSets_chains (b : Backend) (pfx : String) :
    ∀ w, (M.world (listSets b pfx) w).chains = w.chains := by
  intro w
  simp only [M.world, listSets]
  split <;> rfl

theorem pureM_chains {α : Type} (a : α) :
    ∀ w, (M.world (M.pureM a) w).chains = w.chains := fun _ => rfl

theorem flushAll_chains (b : Backend) (ss : List String) :
    ∀ w, (M.world (flushAll b ss) w).chains = w.chains := by
  induction ss with
  | nil => exact pureM_chains ()
  | cons s rest ih =>
    intro w
    rw [flushAll_cons]
    exact bind_world_chains (flushSet_chains b s) (fun _ => ih) w

theorem destroyAllButLocal_chains (b : Backend) (ss : List String) :
    ∀ w, (M.world (destroyAllButLocal b ss) w).chains = w.chains := by
  induction ss with
  | nil => exact pureM_chains ()
  | cons s rest ih =>
    intro w
    rw [destroyAllButLocal_cons]
    split
    · exact ih w
    · exact bind_world_chains (destroySet_chains b s) (fun _ => ih) w

theorem resetIPSets_chains (b : Backend) :
    ∀ w, (M.world (resetIPSets b) w).chains = w.chains := by
  intro w
  rw [resetIPSets_eq]
  exact bind_world_chains (listSets_chains b IpsetNamePrefix)
    (fun sets => bind_world_chains (flushAll_chains b sets)
      (fun _ => destroyAllButLocal_chains b sets)) w

theorem resetIPTables_egress_lookup (b : Backend) :
    ∀ w, lookupChain (M.world (resetIPTables b) w) TableFilter EgressChain =
      lookupChain w TableFilter EgressChain := by
  intro w
  rw [resetIPTables_eq]
  refine bind_lookup (clearChain_lookup_ne b _ _ _ _ (by decide)) (fun _ => ?_) w
  refine bind_lookup (clearChain_lookup_ne b _ _ _ _ (by decide)) (fun _ => ?_)
  refine bind_lookup (clearChain_lookup_ne b _ _ _ _ (by decide)) (fun _ => ?_)
  refine bind_lookup (clearChain_lookup_ne b _ _ _ _ (by decide)) (fun _ => ?_)
  refine bind_lookup (clearChain_lookup_ne b _ _ _ _ (by decide)) (fun _ => ?_)
  exact clearChain_lookup_ne b _ _ _ _ (by decide)

/-- C5: the Bootstrapper (`resetIPTables` followed by `resetIPSets`) leaves
the Egress chain's rule list unchanged, for every starting state and every
backend behaviour. -/
theorem bootstrap_preserves_egress_chain (b : Backend) (w : World) :
    lookupChain (M.world (bootstrap b) w) TableFilter EgressChain =
      lookupChain w TableFilter EgressChain := by
  rw [bootstrap_eq]
  exact bind_lookup (resetIPTables_egress_lookup b)
    (fun _ => chains_eq_lookup (resetIPSets_chains b) TableFilter EgressChain) w

theorem aset_self_eq {κ ν : Type} [DecidableEq κ] (l : List (κ × ν)) (k : κ) (v : ν)
    (h : alookup l k = some v) : aset l k v = l := by
  induction l with
  | nil => simp [alookup] at h
  | cons e es ih =>
    by_cases he : e.1 = k
    · simp only [alookup, if_pos he] at h
      injection h with h
      simp only [aset, if_pos he]
      rw [show (k, v) = e from by rw [← he, ← h]]
    · simp only [alookup, if_neg he] at h
      simp only [aset, if_neg he, ih h]

theorem aset_aset {κ ν : Type} [DecidableEq κ] (l : List (κ × ν)) (k : κ) (v v' : ν) :
    aset (aset l k v) k v' = aset l k v' := by
  induction l with
  | nil => simp [aset]
  | cons e es ih =>
    by_cases he : e.1 = k
    · simp [aset, he]
    · simp [aset, he, ih]

theorem ignoreErr_run {α : Type} {x : M α} {w : World} {r : Except Err α} {w1 : World}
    {tr : List Op} (h : x w = (r, w1, tr)) : ignoreErr x w = (Except.ok (), w1, tr) := by
  unfold ignoreErr
  rw [h]

theorem wrapErr_run_ok {α : Type} (ctx : String) {x : M α} {w : World} {a : α} {w1 : World}
    {tr : List Op} (h : x w = (Except.ok a, w1, tr)) : wrapErr ctx x w = (Except.ok a, w1, tr) := by
  unfold wrapErr
  rw [h]

theorem wrapErr_run_err {α : Type} (ctx : String) {x : M α} {w : World} {e : Err} {w1 : World}
    {tr : List Op} (h : x w = (Except.error e, w1, tr)) :
    wrapErr ctx x w = (Except.error (Err.wrapped ctx e), w1, tr) := by
  unfold wrapErr
  rw [h]

theorem newChain_of_lives (b : Backend) (t c : String) (w : World) (rs : List Rule)
    (hb : b.newChainFails t c = false) (h : lookupChain w t c = some rs) :
    newChain b t c w = (Except.error (Err.newChainExists t c), w, [Op.newChain t c]) := by
  simp [newChain, hb, h]

theorem newChain_of_absent (b : Backend) (t c : String) (w : World)
    (hb : b.newChainFails t c = false) (h : lookupChain w t c = none) :
    newChain b t c w =
      (Except.ok (), { w with chains := aset w.chains (t, c) [] }, [Op.newChain t c]) := by
  simp [newChain, hb, h]

theorem listRules_of_some (b : Backend) (t c : String) (w : World) (rs : List Rule)
    (hb : b.listFails t c = false) (h : lookupChain w t c = some rs) :
    listRules b t c w =
      (Except.ok (("-N " ++ c) :: rs.map renderRule), w, [Op.listRules t c]) := by
  simp [listRules, hb, h]

theorem appendRule_of_some (b : Backend) (t c : String) (r : Rule) (w : World) (rs : List Rule)
    (hb : b.appendFails t c r = false) (h : lookupChain w t c = some rs) :
    appendRule b t c r w =
      (Except.ok (), { w with chains := aset w.chains (t, c) (rs ++ [r]) },
       [Op.appendRule t c r]) := by
  simp [appendRule, hb, h]

theorem renderRules_eq (rs : List Rule) :
    String.intercalate "\x0a" (rs.map renderRule) = renderRules rs := rfl

theorem appendAllWrapped_clean (t c : String) (rs : List Rule) :
    ∀ (w : World) (curr : List Rule), lookupChain w t c = some curr →
      appendAllWrapped cleanBackend t c rs w =
        (Except.ok (), { w with chains := aset w.chains (t, c) (curr ++ rs) },
         rs.map (Op.appendRule t c)) := by
  induction rs with
  | nil =>
    intro w curr h
    show (Except.ok (), w, ([] : List Op)) = _
    rw [show curr ++ [] = curr from by simp, aset_self_eq w.chains (t, c) curr h]
    rfl
  | cons r rest ih =>
    intro w curr h
    rw [appendAllWrapped_cons]
    have happ := appendRule_of_some cleanBackend t c r w curr rfl h
    have hwrap := wrapErr_run_ok
      ("iptables -A. table: " ++ t ++ ", chain: " ++ c ++ ", rule: " ++ renderRule r) happ
    rw [bind_ok hwrap]
    rw [ih _ (curr ++ [r]) (by simp [lookupChain, alookup_aset_self])]
    simp [aset_aset]

theorem reconciler_noop_of_equal (t c : String) (desired curr : List Rule) (w : World)
    (hcur : lookupChain w t c = some curr) (heq : renderRules curr = renderRules desired) :
    addChainWithRules cleanBackend t c desired w =
      (Except.ok (), w, [Op.newChain t c, Op.listRules t c]) := by
  rw [addChainWithRules_eq]
  have hnew := newChain_of_lives cleanBackend t c w curr rfl hcur
  have hig := ignoreErr_run hnew
  rw [bind_ok hig]
  have hlist := listRules_of_some cleanBackend t c w curr rfl hcur
  have hwrap := wrapErr_run_ok ("iptables -S. table: " ++ t ++ ", chain: " ++ c) hlist
  rw [bind_ok hwrap]
  simp only [List.drop_succ_cons, List.drop_zero, renderRules_eq]
  rw [if_pos heq]
  rfl

theorem reconciler_appends_of_ne (t c : String) (desired curr : List Rule) (w : World)
    (hcur : lookupChain w t c = some curr) (hne : renderRules curr ≠ renderRules desired) :
    addChainWithRules cleanBackend t c desired w =
      (Except.ok (), { w with chains := aset w.chains (t, c) (curr ++ desired) },
       [Op.newChain t c, Op.listRules t c] ++ desired.map (Op.appendRule t c)) := by
  rw [addChainWithRules_eq]
  have hnew := newChain_of_lives cleanBackend t c w curr rfl hcur
  have hig := ignoreErr_run hnew
  rw [bind_ok hig]
  have hlist := listRules_of_some cleanBackend t c w curr rfl hcur
  have hwrap := wrapErr_run_ok ("iptables -S. table: " ++ t ++ ", chain: " ++ c) hlist
  rw [bind_ok hwrap]
  simp only [List.drop_succ_cons, List.drop_zero, renderRules_eq]
  rw [if_neg hne]
  rw [appendAllWrapped_clean t c desired w curr hcur]
  rfl

/-- C1: whenever the chain's current rule list renders differently from the
desired one, `addChainWithRules` appends the desired rules after the
existing ones without clearing the chain first; from [A, B] with desired
[A, C] this yields [A, B, A, C]. -/
theorem reconciler_appends_without_flush (t c : String) (desired curr : List Rule) (w : World)
    (hcur : lookupChain w t c = some curr)
    (hne : renderRules curr ≠ renderRules desired) :
    M.res (addChainWithRules cleanBackend t c desired) w = Except.ok () ∧
    lookupChain (M.world (addChainWithRules cleanBackend t c desired) w) t c =
      some (curr ++ desired) ∧
    M.trace (addChainWithRules cleanBackend t c desired) w =
      [Op.newChain t c, Op.listRules t c] ++ desired.map (Op.appendRule t c) := by
  have h := reconciler_appends_of_ne t c desired curr w hcur hne
  refine ⟨?_, ?_, ?_⟩ <;> simp only [M.res, M.world, M.trace, h, lookupChain]
  exact alookup_aset_self _ _ _

/-- Witness for C1: a chain holding [accept, drop], reconciled with desired
[accept, return], ends up holding [accept, drop, accept, return]. -/
theorem reconciler_appends_without_flush_witness :
    lookupChain
      (M.world
        (addChainWithRules cleanBackend TableFilter "test" [["-j", "ACCEPT"], ["-j", "RETURN"]])
        { chains := [((TableFilter, "test"), [["-j", "ACCEPT"], ["-j", "DROP"]])], sets := [] })
      TableFilter "test" =
      some [["-j", "ACCEPT"], ["-j", "DROP"], ["-j", "ACCEPT"], ["-j", "RETURN"]] :=
  (reconciler_appends_without_flush TableFilter "test"
    [["-j", "ACCEPT"], ["-j", "RETURN"]] [["-j", "ACCEPT"], ["-j", "DROP"]]
    { chains := [((TableFilter, "test"), [["-j", "ACCEPT"], ["-j", "DROP"]])], sets := [] }
    (by decide) (by decide)).2.1

/-- C2 counterexample: starting from a chain holding one stale rule, two
successive reconcile calls with the same (table, chain, desired-rules) both
issue appends — the second call is not a pure no-op, so two underlying
append batches are triggered, not one. -/
theorem reconciler_second_call_appends_again :
    (M.trace (addChainWithRules cleanBackend TableFilter "test2" [["-j", "ACCEPT"]])
        { chains := [((TableFilter, "test2"), [["-j", "DROP"]])], sets := [] }).any
      isAppendOp = true ∧
    (M.trace (addChainWithRules cleanBackend TableFilter "test2" [["-j", "ACCEPT"]])
        (M.world (addChainWithRules cleanBackend TableFilter "test2" [["-j", "ACCEPT"]])
          { chains := [((TableFilter, "test2"), [["-j", "DROP"]])], sets := [] })).any
      isAppendOp = true := by
  decide

/-- C2 (amended): when the chain's current rule list already renders equal
to the desired rules, the call performs no append operation (it only probes
the chain and lists it, leaving the world untouched); consequently, when
the chain starts out absent (so the first call leaves exactly the desired
rules, whose rendering is nonempty), calling the reconciler twice in a row
with the same input triggers exactly one underlying append batch — the
first call appends once per desired rule and the second call is a pure
no-op. -/
theorem reconciler_idempotence_scope :
    (∀ (t c : String) (desired curr : List Rule) (w : World),
      lookupChain w t c = some curr → renderRules curr = renderRules desired →
      addChainWithRules cleanBackend t c desired w =
        (Except.ok (), w, [Op.newChain t c, Op.listRules t c])) ∧
    (∀ (t c : String) (desired : List Rule) (w : World),
      lookupChain w t c = none → renderRules desired ≠ "" →
      M.trace (addChainWithRules cleanBackend t c desired) w =
        [Op.newChain t c, Op.listRules t c] ++ desired.map (Op.appendRule t c) ∧
      addChainWithRules cleanBackend t c desired
          (M.world (addChainWithRules cleanBackend t c desired) w) =
        (Except.ok (), M.world (addChainWithRules cleanBackend t c desired) w,
         [Op.newChain t c, Op.listRules t c])) := by
  refine ⟨fun t c desired curr w hcur heq => reconciler_noop_of_equal t c desired curr w hcur heq,
    fun t c desired w hnone hne => ?_⟩
  have hnew := newChain_of_absent cleanBackend t c w rfl hnone
  have hig := ignoreErr_run hnew
  have hw1 : lookupChain { w with chains := aset w.chains (t, c) [] } t c = some [] := by
    simp [lookupChain, alookup_aset_self]
  have hfull : addChainWithRules cleanBackend t c desired w =
      (Except.ok (), { w with chains := aset w.chains (t, c) desired },
       [Op.newChain t c, Op.listRules t c] ++ desired.map (Op.appendRule t c)) := by
    rw [addChainWithRules_eq, bind_ok hig]
    have hlist := listRules_of_some cleanBackend t c _ [] rfl hw1
    have hwrap := wrapErr_run_ok ("iptables -S. table: " ++ t ++ ", chain: " ++ c) hlist
    rw [bind_ok hwrap]
    simp only [List.drop_succ_cons, List.drop_zero, renderRules_eq]
    rw [if_neg (fun h => hne (h.symm.trans rfl))]
    rw [appendAllWrapped_clean t c desired _ [] hw1]
    simp [aset_aset]
  have hw2 : lookupChain (M.world (addChainWithRules cleanBackend t c desired) w) t c =
      some desired := by
    simp only [M.world, hfull, lookupChain]
    exact alookup_aset_self _ _ _
  exact ⟨by simp only [M.trace, hfull],
    reconciler_noop_of_equal t c desired desired _ hw2 rfl⟩

/-- Witness for C2 at concrete inputs: a chain already holding the desired
rule is left untouched with no append; from an absent chain, the first call
appends once and the second call issues no append. -/
theorem reconciler_idempotence_scope_witness :
    addChainWithRules cleanBackend TableFilter "t3" [["-j", "ACCEPT"]]
        { chains := [((TableFilter, "t3"), [["-j", "ACCEPT"]])], sets := [] } =
      (Except.ok (), { chains := [((TableFilter, "t3"), [["-j", "ACCEPT"]])], sets := [] },
       [Op.newChain TableFilter "t3", Op.listRules TableFilter "t3"]) ∧
    M.trace (addChainWithRules cleanBackend TableFilter "t3" [["-j", "ACCEPT"]])
        { chains := [], sets := [] } =
      [Op.newChain TableFilter "t3", Op.listRules TableFilter "t3",
       Op.appendRule TableFilter "t3" ["-j", "ACCEPT"]] ∧
    addChainWithRules cleanBackend TableFilter "t3" [["-j", "ACCEPT"]]
        (M.world (addChainWithRules cleanBackend TableFilter "t3" [["-j", "ACCEPT"]])
          { chains := [], sets := [] }) =
      (Except.ok (),
       M.world (addChainWithRules cleanBackend TableFilter "t3" [["-j", "ACCEPT"]])
         { chains := [], sets := [] },
       [Op.newChain TableFilter "t3", Op.listRules TableFilter "t3"]) :=
  ⟨reconciler_idempotence_scope.1 TableFilter "t3" [["-j", "ACCEPT"]] [["-j", "ACCEPT"]]
      { chains := [((TableFilter, "t3"), [["-j", "ACCEPT"]])], sets := [] } (by decide) rfl,
   (reconciler_idempotence_scope.2 TableFilter "t3" [["-j", "ACCEPT"]]
      { chains := [], sets := [] } (by decide) (by decide)).1,
   (reconciler_idempotence_scope.2 TableFilter "t3" [["-j", "ACCEPT"]]
      { chains := [], sets := [] } (by decide) (by decide)).2⟩

theorem newChain_trace (b : Backend) (t c : String) (w : World) :
    (newChain b t c w).2.2 = [Op.newChain t c] := by
  unfold newChain
  split
  · rfl
  · split <;> rfl

theorem listRules_run (b : Backend) (t c : String) (w : World) :
    (listRules b t c w).2.1 = w ∧ (listRules b t c w).2.2 = [Op.listRules t c] ∧
    (∀ e, (listRules b t c w).1 = Except.error e → e.fromCreate = false) := by
  unfold listRules
  split
  · refine ⟨rfl, rfl, fun e he => ?_⟩
    injection he with he
    rw [← he]
    rfl
  · split
    · exact ⟨rfl, rfl, fun e he => by cases he⟩
    · refine ⟨rfl, rfl, fun e he => ?_⟩
      injection he with he
      rw [← he]
      rfl

theorem appendRule_err_shape (b : Backend) (t c : String) (r : Rule) (w : World) :
    ∀ e, (appendRule b t c r w).1 = Except.error e → e.fromCreate = false := by
  unfold appendRule
  split
  · intro e he
    injection he with he
    rw [← he]
    rfl
  · split
    · intro e he
      cases he
    · intro e he
      injection he with he
      rw [← he]
      rfl

theorem appendAllWrapped_err_shape (b : Backend) (t c : String) (rs : List Rule) :
    ∀ (w : World) (e : Err), (appendAllWrapped b t c rs w).1 = Except.error e →
      e.fromCreate = false := by
  induction rs with
  | nil =>
    intro w e he
    cases he
  | cons r rest ih =>
    intro w e he
    rw [appendAllWrapped_cons] at he
    rcases hx : appendRule b t c r w with ⟨r1, w1, tr1⟩
    cases r1 with
    | ok a =>
      have hwrap := wrapErr_run_ok
        ("iptables -A. table: " ++ t ++ ", chain: " ++ c ++ ", rule: " ++ renderRule r) hx
      rw [bind_ok hwrap] at he
      exact ih w1 e he
    | error ea =>
      have hwrap := wrapErr_run_err
        ("iptables -A. table: " ++ t ++ ", chain: " ++ c ++ ", rule: " ++ renderRule r) hx
      rw [bind_err hwrap] at he
      injection he with he
      rw [← he]
      show ea.fromCreate = false
      exact appendRule_err_shape b t c r w ea (by rw [hx])

/-- C10: `addChainWithRules` discards every error of the chain-creation
step — whatever the backend does, execution proceeds to listing the chain's
rules, and any error returned to the caller is a wrapped list or append
error, never a chain-creation error. -/
theorem reconciler_discards_create_error (b : Backend) (t c : String) (rs : List Rule)
    (w : World) :
    (∃ rest, M.trace (addChainWithRules b t c rs) w =
      Op.newChain t c :: Op.listRules t c :: rest) ∧
    (∀ e, M.res (addChainWithRules b t c rs) w = Except.error e → e.fromCreate = false) := by
  rw [addChainWithRules_eq]
  rcases hnc : newChain b t c w with ⟨r1, w1, tr1⟩
  have htr1 : tr1 = [Op.newChain t c] := by
    have hh := newChain_trace b t c w
    rw [hnc] at hh
    exact hh
  subst htr1
  have hig := ignoreErr_run hnc
  rcases hls : listRules b t c w1 with ⟨r2, w2, tr2⟩
  have hrun := listRules_run b t c w1
  rw [hls] at hrun
  obtain ⟨hw2, htr2, herr2⟩ := hrun
  have hw2' : w2 = w1 := hw2
  have htr2' : tr2 = [Op.listRules t c] := htr2
  have hls2 : listRules b t c w1 = (r2, w1, [Op.listRules t c]) := by
    rw [hls, hw2', htr2']
  have herr2' : ∀ e, r2 = Except.error e → e.fromCreate = false := fun e he => herr2 e he
  cases r2 with
  | error e2 =>
    have hwrap := wrapErr_run_err ("iptables -S. table: " ++ t ++ ", chain: " ++ c) hls2
    refine ⟨⟨[], ?_⟩, fun e he => ?_⟩
    · simp only [M.trace, bind_ok hig, bind_err hwrap]
      rfl
    · simp only [M.res, bind_ok hig, bind_err hwrap] at he
      injection he with he
      rw [← he]
      show e2.fromCreate = false
      exact herr2' e2 rfl
  | ok lst =>
    have hwrap := wrapErr_run_ok ("iptables -S. table: " ++ t ++ ", chain: " ++ c) hls2
    have hbody : (fun currRuleSpecs : List String =>
        if String.intercalate "\x0a" (currRuleSpecs.drop 1) = renderRules rs then
          M.pureM () else appendAllWrapped b t c rs) lst =
        if String.intercalate "\x0a" (lst.drop 1) = renderRules rs then
          M.pureM () else appendAllWrapped b t c rs := rfl
    by_cases hc : String.intercalate "\x0a" (lst.drop 1) = renderRules rs
    · refine ⟨⟨[], ?_⟩, fun e he => ?_⟩
      · simp only [M.trace, bind_ok hig, bind_ok hwrap, hbody, if_pos hc]
        rfl
      · simp only [M.res, bind_ok hig, bind_ok hwrap, hbody, if_pos hc] at he
        cases he
    · refine ⟨⟨(appendAllWrapped b t c rs w1).2.2, ?_⟩, fun e he => ?_⟩
      · simp only [M.trace, bind_ok hig, bind_ok hwrap, hbody, if_neg hc]
        rfl
      · simp only [M.res, bind_ok hig, bind_ok hwrap, hbody, if_neg hc] at he
        exact appendAllWrapped_err_shape b t c rs w1 e he

/-- Witness for C10: with a backend on which both chain creation and rule
listing fail, the reconciler still issues the list command and returns the
wrapped listing error — whose shape is not a creation error. -/
theorem reconciler_discards_create_error_witness :
    (∃ rest, M.trace
        (addChainWithRules
          { cleanBackend with newChainFails := fun _ _ => true, listFails := fun _ _ => true }
          TableFilter "t4" [])
        { chains := [], sets := [] } =
      Op.newChain TableFilter "t4" :: Op.listRules TableFilter "t4" :: rest) ∧
    (Err.wrapped ("iptables -S. table: " ++ TableFilter ++ ", chain: " ++ "t4")
        (Err.listErr TableFilter "t4")).fromCreate = false :=
  ⟨(reconciler_discards_create_error
      { cleanBackend with newChainFails := fun _ _ => true, listFails := fun _ _ => true }
      TableFilter "t4" [] { chains := [], sets := [] }).1,
   (reconciler_discards_create_error
      { cleanBackend with newChainFails := fun _ _ => true, listFails := fun _ _ => true }
      TableFilter "t4" [] { chains := [], sets := [] }).2 _ (by decide)⟩

theorem setLives_iff_mem_names (w : World) (s : String) :
    setLives w s = true ↔ s ∈ setNames w := by
  simpa [setLives, setMembers, setNames] using alookup_isSome_iff_mem w.sets s

theorem flushSet_of_lives (b : Backend) (s : String) (w : World)
    (hb : b.flushFails s = false) (h : setLives w s = true) :
    flushSet b s w = (Except.ok (), { w with sets := aset w.sets s [] }, [Op.flushSet s]) := by
  simp [flushSet, hb, h]

theorem destroySet_of_lives (b : Backend) (s : String) (w : World)
    (hb : b.destroyFails s = false) (h : setLives w s = true) :
    destroySet b s w = (Except.ok (), { w with sets := aerase w.sets s }, [Op.destroySet s]) := by
  simp [destroySet, hb, h]

theorem setLives_aset_flush (w : World) (s : String) (h : setLives w s = true) (x : String) :
    setLives { w with sets := aset w.sets s [] } x = setLives w x := by
  by_cases hx : x = s
  · subst hx
    simp only [setLives, setMembers] at h ⊢
    rw [alookup_aset_self]
    simp [h]
  · simp only [setLives, setMembers]
    rw [alookup_aset_ne _ _ _ _ hx]

theorem setLives_aerase_self (w : World) (s : String) :
    setLives { w with sets := aerase w.sets s } s = false := by
  simp [setLives, setMembers, alookup_aerase_self]

theorem setLives_aerase_ne (w : World) (s x : String) (hx : x ≠ s) :
    setLives { w with sets := aerase w.sets s } x = setLives w x := by
  simp only [setLives, setMembers]
  rw [alookup_aerase_ne _ _ _ hx]

theorem flushAll_clean (ss : List String) :
    ∀ (w : World), (∀ s ∈ ss, setLives w s = true) →
      (flushAll cleanBackend ss w).1 = Except.ok () ∧
      (flushAll cleanBackend ss w).2.2 = ss.map Op.flushSet ∧
      (∀ x, setLives (flushAll cleanBackend ss w).2.1 x = setLives w x) := by
  induction ss with
  | nil => exact fun w _ => ⟨rfl, rfl, fun _ => rfl⟩
  | cons s rest ih =>
    intro w h
    have hs := h s (by simp)
    have hf := flushSet_of_lives cleanBackend s w rfl hs
    have hrest := ih { w with sets := aset w.sets s [] }
      (fun s' hs' => by
        rw [setLives_aset_flush w s hs s']
        exact h s' (List.mem_cons_of_mem _ hs'))
    rw [flushAll_cons, bind_ok hf]
    refine ⟨?_, ?_, fun x => ?_⟩ <;> dsimp only
    · exact hrest.1
    · rw [hrest.2.1]
      rfl
    · rw [hrest.2.2 x, setLives_aset_flush w s hs x]

theorem destroyAllButLocal_clean (ss : List String) :
    ∀ (w : World), ss.Nodup → (∀ s ∈ ss, setLives w s = true) →
      (destroyAllButLocal cleanBackend ss w).1 = Except.ok () ∧
      (destroyAllButLocal cleanBackend ss w).2.2 =
        (ss.filter (fun s => s ≠ LocalIpset)).map Op.destroySet ∧
      (∀ x, setLives (destroyAllButLocal cleanBackend ss w).2.1 x =
        if x ∈ ss ∧ x ≠ LocalIpset then false else setLives w x) := by
  induction ss with
  | nil =>
    refine fun w _ _ => ⟨rfl, rfl, fun x => ?_⟩
    show setLives w x = if x ∈ ([] : List String) ∧ x ≠ LocalIpset then false else setLives w x
    simp
  | cons s rest ih =>
    intro w hnd h
    have hndr := hnd.of_cons
    have hsm : s ∉ rest := (List.nodup_cons.mp hnd).1
    by_cases hsl : s = LocalIpset
    · rw [destroyAllButLocal_cons, if_pos hsl]
      have hrest := ih w hndr (fun s' hs' => h s' (List.mem_cons_of_mem _ hs'))
      refine ⟨hrest.1, ?_, fun x => ?_⟩
      · rw [hrest.2.1]
        have : List.filter (fun s => decide (s ≠ LocalIpset)) (s :: rest) =
            List.filter (fun s => decide (s ≠ LocalIpset)) rest := by
          simp [List.filter_cons, hsl]
        rw [this]
      · rw [hrest.2.2 x]
        by_cases hxr : x ∈ rest ∧ x ≠ LocalIpset
        · rw [if_pos hxr, if_pos ⟨List.mem_cons_of_mem _ hxr.1, hxr.2⟩]
        · rw [if_neg hxr, if_neg ?_]
          intro hx
          rcases hx with ⟨hmem, hne⟩
          rcases List.mem_cons.mp hmem with hxs | hxr'
          · exact hne (hxs.trans hsl)
          · exact hxr ⟨hxr', hne⟩
    · rw [destroyAllButLocal_cons, if_neg hsl]
      have hs := h s (by simp)
      have hd := destroySet_of_lives cleanBackend s w rfl hs
      have hrest := ih { w with sets := aerase w.sets s } hndr
        (fun s' hs' => by
          rw [setLives_aerase_ne w s s' (fun he => hsm (he ▸ hs'))]
          exact h s' (List.mem_cons_of_mem _ hs'))
      rw [bind_ok hd]
      refine ⟨?_, ?_, fun x => ?_⟩ <;> dsimp only
      · exact hrest.1
      · rw [hrest.2.1]
        have : List.filter (fun s => decide (s ≠ LocalIpset)) (s :: rest) =
            s :: List.filter (fun s => decide (s ≠ LocalIpset)) rest := by
          simp [List.filter_cons, hsl]
        rw [this]
        rfl
      · rw [hrest.2.2 x]
        by_cases hxs : x = s
        · subst hxs
          rw [if_neg (fun hx => hsm hx.1), if_pos ⟨by simp, hsl⟩]
          exact setLives_aerase_self w x
        · rw [setLives_aerase_ne w s x hxs]
          by_cases hxr : x ∈ rest ∧ x ≠ LocalIpset
          · rw [if_pos hxr, if_pos ⟨List.mem_cons_of_mem _ hxr.1, hxr.2⟩]
          · rw [if_neg hxr, if_neg ?_]
            intro hx
            rcases hx with ⟨hmem, hne⟩
            rcases List.mem_cons.mp hmem with hxs' | hxr'
            · exact hxs hxs'
            · exact hxr ⟨hxr', hne⟩

theorem listSets_clean (pfx : String) (w : World) :
    listSets cleanBackend pfx w =
      (Except.ok ((setNames w).filter (hasPfx pfx)), w, [Op.listSets pfx]) := by
  simp [listSets, cleanBackend]

theorem flushesFirst_flush_cons (s : String) (l : List Op) :
    flushesFirst (Op.flushSet s :: l) = flushesFirst l := rfl

theorem flushesFirst_shape (fs ds : List String) :
    flushesFirst (fs.map Op.flushSet ++ ds.map Op.destroySet) = true := by
  induction fs with
  | nil =>
    cases ds with
    | nil => rfl
    | cons d ds' =>
      show (ds'.map Op.destroySet).all (fun op => !isFlushOp op) = true
      simp only [List.all_eq_true, List.mem_map]
      rintro op ⟨d', _, rfl⟩
      rfl
  | cons f fs' ih =>
    simpa [flushesFirst_flush_cons] using ih

/-- C6: a successful `resetIPSets` flushes every existing set carrying the
reserved tag (the local-pods set included) before any destroy command is
issued, and afterwards no set carrying the reserved tag other than the
local-pods set exists. -/
theorem resetIPSets_removes_prefixed_sets (w : World) (hnd : (setNames w).Nodup) :
    M.res (resetIPSets cleanBackend) w = Except.ok () ∧
    (∀ s, s ∈ setNames w → hasPfx IpsetNamePrefix s = true →
      Op.flushSet s ∈ M.trace (resetIPSets cleanBackend) w) ∧
    flushesFirst (M.trace (resetIPSets cleanBackend) w) = true ∧
    (∀ s, hasPfx IpsetNamePrefix s = true → s ≠ LocalIpset →
      setLives (M.world (resetIPSets cleanBackend) w) s = false) := by
  have hls := listSets_clean IpsetNamePrefix w
  set ss := (setNames w).filter (hasPfx IpsetNamePrefix) with hss
  have hnds : ss.Nodup := hnd.filter _
  have hlive : ∀ s ∈ ss, setLives w s = true := fun s hs =>
    (setLives_iff_mem_names w s).mpr (List.mem_of_mem_filter hs)
  rcases hfa : flushAll cleanBackend ss w with ⟨r1, w1, tr1⟩
  have hfc := flushAll_clean ss w hlive
  rw [hfa] at hfc
  obtain ⟨hr1, htr1, hl1⟩ := hfc
  have hr1' : r1 = Except.ok () := hr1
  have htr1' : tr1 = ss.map Op.flushSet := htr1
  have hl1' : ∀ x, setLives w1 x = setLives w x := hl1
  have hfa2 : flushAll cleanBackend ss w = (Except.ok (), w1, ss.map Op.flushSet) := by
    rw [hfa, hr1', htr1']
  have hlive1 : ∀ s ∈ ss, setLives w1 s = true := fun s hs => (hl1' s).trans (hlive s hs)
  rcases hda : destroyAllButLocal cleanBackend ss w1 with ⟨r2, w2, tr2⟩
  have hdc := destroyAllButLocal_clean ss w1 hnds hlive1
  rw [hda] at hdc
  obtain ⟨hr2, htr2, hl2⟩ := hdc
  have hr2' : r2 = Except.ok () := hr2
  have htr2' : tr2 = (ss.filter (fun s => s ≠ LocalIpset)).map Op.destroySet := htr2
  have hl2' : ∀ x, setLives w2 x =
      if x ∈ ss ∧ x ≠ LocalIpset then false else setLives w1 x := hl2
  have hda2 : destroyAllButLocal cleanBackend ss w1 =
      (Except.ok (), w2, (ss.filter (fun s => s ≠ LocalIpset)).map Op.destroySet) := by
    rw [hda, hr2', htr2']
  have hprog : resetIPSets cleanBackend w =
      (Except.ok (), w2,
       Op.listSets IpsetNamePrefix ::
         (ss.map Op.flushSet ++ (ss.filter (fun s => s ≠ LocalIpset)).map Op.destroySet)) := by
    rw [resetIPSets_eq]
    rw [bind_ok hls]
    rw [bind_ok hfa2]
    rw [hda2]
    rfl
  refine ⟨?_, fun s hmem hpfx => ?_, ?_, fun s hpfx hneL => ?_⟩
  · simp only [M.res, hprog]
  · simp only [M.trace, hprog]
    refine List.mem_cons_of_mem _ (List.mem_append_left _ ?_)
    exact List.mem_map_of_mem _ (List.mem_filter.mpr ⟨hmem, hpfx⟩)
  · simp only [M.trace, hprog]
    show flushesFirst (ss.map Op.flushSet ++ _) = true
    exact flushesFirst_shape ss (ss.filter (fun s => s ≠ LocalIpset))
  · simp only [M.world, hprog]
    rw [hl2' s]
    by_cases hmem : s ∈ ss
    · rw [if_pos ⟨hmem, hneL⟩]
    · rw [if_neg (fun hx => hmem hx.1), hl1' s]
      cases hswb : setLives w s with
      | false => rfl
      | true =>
        exact absurd (List.mem_filter.mpr ⟨(setLives_iff_mem_names w s).mp hswb, hpfx⟩) hmem

/-- Witness for C6 on a concrete world holding a tagged set, an untagged
set and the local-pods set: the run succeeds, the tagged set is flushed,
flushes precede destroys, and the tagged set no longer exists. -/
theorem resetIPSets_removes_prefixed_sets_witness :
    M.res (resetIPSets cleanBackend)
      { chains := [], sets := [("weave-a", ["x"]), ("other", []), (LocalIpset, ["y"])] } =
      Except.ok () ∧
    Op.flushSet "weave-a" ∈ M.trace (resetIPSets cleanBackend)
      { chains := [], sets := [("weave-a", ["x"]), ("other", []), (LocalIpset, ["y"])] } ∧
    setLives (M.world (resetIPSets cleanBackend)
      { chains := [], sets := [("weave-a", ["x"]), ("other", []), (LocalIpset, ["y"])] })
      "weave-a" = false :=
  ⟨(resetIPSets_removes_prefixed_sets _ (by decide)).1,
   (resetIPSets_removes_prefixed_sets _ (by decide)).2.1 "weave-a" (by decide) (by decide),
   (resetIPSets_removes_prefixed_sets _ (by decide)).2.2.2 "weave-a" (by decide) (by decide)⟩

theorem clearChain_of_ok (b : Backend) (t c : String) (w : World)
    (hb : b.clearFails t c = false) :
    clearChain b t c w =
      (Except.ok (), { w with chains := aset w.chains (t, c) [] }, [Op.clearChain t c]) := by
  simp [clearChain, hb]

theorem clearChain_of_fail (b : Backend) (t c : String) (w : World)
    (hb : b.clearFails t c = true) :
    clearChain b t c w = (Except.error (Err.clearErr t c), w, [Op.clearChain t c]) := by
  simp [clearChain, hb]

theorem listSets_of_ok (b : Backend) (pfx : String) (w : World) (hb : b.listSetsFails = false) :
    listSets b pfx w =
      (Except.ok ((setNames w).filter (hasPfx pfx)), w, [Op.listSets pfx]) := by
  simp [listSets, hb]

theorem flushAll_ok (b : Backend) (ss : List String) :
    ∀ (w : World), (∀ s ∈ ss, b.flushFails s = false ∧ setLives w s = true) →
      (flushAll b ss w).1 = Except.ok () ∧
      (flushAll b ss w).2.2 = ss.map Op.flushSet ∧
      (∀ x, setLives (flushAll b ss w).2.1 x = setLives w x) := by
  induction ss with
  | nil => exact fun w _ => ⟨rfl, rfl, fun _ => rfl⟩
  | cons s rest ih =>
    intro w h
    have hs := h s (by simp)
    have hf := flushSet_of_lives b s w hs.1 hs.2
    have hrest := ih { w with sets := aset w.sets s [] }
      (fun s' hs' => ⟨(h s' (List.mem_cons_of_mem _ hs')).1, by
        rw [setLives_aset_flush w s hs.2 s']
        exact (h s' (List.mem_cons_of_mem _ hs')).2⟩)
    rw [flushAll_cons, bind_ok hf]
    refine ⟨?_, ?_, fun x => ?_⟩ <;> dsimp only
    · exact hrest.1
    · rw [hrest.2.1]
      rfl
    · rw [hrest.2.2 x, setLives_aset_flush w s hs.2 x]

theorem flushAll_firstFail (b : Backend) :
    ∀ (ss1 : List String) (s : String) (ss2 : List String) (w : World),
      (∀ s' ∈ ss1, b.flushFails s' = false ∧ setLives w s' = true) →
      b.flushFails s = true →
      ∃ w', flushAll b (ss1 ++ s :: ss2) w =
        (Except.error (Err.flushErr s), w', ss1.map Op.flushSet ++ [Op.flushSet s]) := by
  intro ss1
  induction ss1 with
  | nil =>
    intro s ss2 w _ hf
    refine ⟨w, ?_⟩
    rw [List.nil_append, flushAll_cons]
    have hfs : flushSet b s w = (Except.error (Err.flushErr s), w, [Op.flushSet s]) := by
      simp [flushSet, hf]
    rw [bind_err hfs]
    rfl
  | cons a rest ih =>
    intro s ss2 w h hf
    have ha := h a (by simp)
    have hfa := flushSet_of_lives b a w ha.1 ha.2
    obtain ⟨w', hw'⟩ := ih s ss2 { w with sets := aset w.sets a [] }
      (fun s' hs' => ⟨(h s' (List.mem_cons_of_mem _ hs')).1, by
        rw [setLives_aset_flush w a ha.2 s']
        exact (h s' (List.mem_cons_of_mem _ hs')).2⟩) hf
    refine ⟨w', ?_⟩
    rw [List.cons_append, flushAll_cons, bind_ok hfa, hw']
    rfl

theorem destroyAllButLocal_firstFail (b : Backend) :
    ∀ (ss1 : List String) (s : String) (ss2 : List String) (w : World),
      ss1.Nodup → s ∉ ss1 →
      (∀ s' ∈ ss1, setLives w s' = true) →
      (∀ s' ∈ ss1, s' ≠ LocalIpset → b.destroyFails s' = false) →
      s ≠ LocalIpset → b.destroyFails s = true →
      ∃ w', destroyAllButLocal b (ss1 ++ s :: ss2) w =
        (Except.error (Err.destroyErr s), w',
         (ss1.filter (fun x => x ≠ LocalIpset)).map Op.destroySet ++ [Op.destroySet s]) := by
  intro ss1
  induction ss1 with
  | nil =>
    intro s ss2 w _ _ _ _ hsl hdf
    refine ⟨w, ?_⟩
    rw [List.nil_append, destroyAllButLocal_cons, if_neg hsl]
    have hds : destroySet b s w = (Except.error (Err.destroyErr s), w, [Op.destroySet s]) := by
      simp [destroySet, hdf]
    rw [bind_err hds]
    rfl
  | cons a rest ih =>
    intro s ss2 w hnd hns hlive hdok hsl hdf
    have hndr := hnd.of_cons
    have ham : a ∉ rest := (List.nodup_cons.mp hnd).1
    have hnsr : s ∉ rest := fun hx => hns (List.mem_cons_of_mem _ hx)
    have hnsa : s ≠ a := fun hx => hns (by rw [hx]; simp)
    by_cases hal : a = LocalIpset
    · obtain ⟨w', hw'⟩ := ih s ss2 w hndr hnsr
        (fun s' hs' => hlive s' (List.mem_cons_of_mem _ hs'))
        (fun s' hs' => hdok s' (List.mem_cons_of_mem _ hs')) hsl hdf
      refine ⟨w', ?_⟩
      rw [List.cons_append, destroyAllButLocal_cons, if_pos hal, hw']
      have : List.filter (fun x => decide (x ≠ LocalIpset)) (a :: rest) =
          List.filter (fun x => decide (x ≠ LocalIpset)) rest := by
        simp [List.filter_cons, hal]
      rw [this]
    · have hda := destroySet_of_lives b a w (hdok a (by simp) hal) (hlive a (by simp))
      obtain ⟨w', hw'⟩ := ih s ss2 { w with sets := aerase w.sets a } hndr hnsr
        (fun s' hs' => by
          rw [setLives_aerase_ne w a s' (fun he => ham (he ▸ hs'))]
          exact hlive s' (List.mem_cons_of_mem _ hs'))
        (fun s' hs' => hdok s' (List.mem_cons_of_mem _ hs')) hsl hdf
      refine ⟨w', ?_⟩
      rw [List.cons_append, destroyAllButLocal_cons, if_neg hal, bind_ok hda, hw']
      have : List.filter (fun x => decide (x ≠ LocalIpset)) (a :: rest) =
          a :: List.filter (fun x => decide (x ≠ LocalIpset)) rest := by
        simp [List.filter_cons, hal]
      rw [this]
      rfl

theorem resetIPTables_ok_trace (b : Backend) (w : World)
    (h : M.res (resetIPTables b) w = Except.ok ()) :
    M.trace (resetIPTables b) w = sixClears := by
  simp only [M.res] at h
  simp only [M.trace]
  rw [resetIPTables_eq] at h ⊢
  cases hb0 : b.clearFails TableFilter IngressChain with
  | true => rw [bind_err (clearChain_of_fail b _ _ w hb0)] at h; simp at h
  | false =>
  rw [bind_ok (clearChain_of_ok b _ _ w hb0)] at h ⊢
  cases hb1 : b.clearFails TableFilter DefaultChain with
  | true => rw [bind_err (clearChain_of_fail b _ _ _ hb1)] at h; simp at h
  | false =>
  rw [bind_ok (clearChain_of_ok b _ _ _ hb1)] at h ⊢
  cases hb2 : b.clearFails TableFilter MainChain with
  | true => rw [bind_err (clearChain_of_fail b _ _ _ hb2)] at h; simp at h
  | false =>
  rw [bind_ok (clearChain_of_ok b _ _ _ hb2)] at h ⊢
  cases hb3 : b.clearFails TableFilter EgressMarkChain with
  | true => rw [bind_err (clearChain_of_fail b _ _ _ hb3)] at h; simp at h
  | false =>
  rw [bind_ok (clearChain_of_ok b _ _ _ hb3)] at h ⊢
  cases hb4 : b.clearFails TableFilter EgressCustomChain with
  | true => rw [bind_err (clearChain_of_fail b _ _ _ hb4)] at h; simp at h
  | false =>
  rw [bind_ok (clearChain_of_ok b _ _ _ hb4)] at h ⊢
  cases hb5 : b.clearFails TableFilter EgressDefaultChain with
  | true => rw [clearChain_of_fail b _ _ _ hb5] at h; simp at h
  | false =>
  rw [clearChain_of_ok b _ _ _ hb5]
  rfl

theorem resetIPTables_firstFail (b : Backend) (w : World) (k : Nat) (hk : k < 6)
    (hprev : ∀ j, j < k → b.clearFails TableFilter (sixChains.getD j "") = false)
    (hfail : b.clearFails TableFilter (sixChains.getD k "") = true) :
    M.res (resetIPTables b) w = Except.error (Err.clearErr TableFilter (sixChains.getD k "")) ∧
    M.trace (resetIPTables b) w = sixClears.take (k + 1) := by
  interval_cases k
  · have hf : b.clearFails TableFilter IngressChain = true := hfail
    constructor
    · show (resetIPTables b w).1 = _
      rw [resetIPTables_eq,
        bind_err (clearChain_of_fail b _ _ w hf)]
      rfl
    · show (resetIPTables b w).2.2 = _
      rw [resetIPTables_eq,
        bind_err (clearChain_of_fail b _ _ w hf)]
      rfl
  · have h0 : b.clearFails TableFilter IngressChain = false := hprev 0 (by norm_num)
    have hf : b.clearFails TableFilter DefaultChain = true := hfail
    constructor
    · show (resetIPTables b w).1 = _
      rw [resetIPTables_eq,
        bind_ok (clearChain_of_ok b _ _ w h0),
        bind_err (clearChain_of_fail b _ _ _ hf)]
      rfl
    · show (resetIPTables b w).2.2 = _
      rw [resetIPTables_eq,
        bind_ok (clearChain_of_ok b _ _ w h0),
        bind_err (clearChain_of_fail b _ _ _ hf)]
      rfl
  · have h0 : b.clearFails TableFilter IngressChain = false := hprev 0 (by norm_num)
    have h1 : b.clearFails TableFilter DefaultChain = false := hprev 1 (by norm_num)
    have hf : b.clearFails TableFilter MainChain = true := hfail
    constructor
    · show (resetIPTables b w).1 = _
      rw [resetIPTables_eq,
        bind_ok (clearChain_of_ok b _ _ w h0),
        bind_ok (clearChain_of_ok b _ _ _ h1),
        bind_err (clearChain_of_fail b _ _ _ hf)]
      rfl
    · show (resetIPTables b w).2.2 = _
      rw [resetIPTables_eq,
        bind_ok (clearChain_of_ok b _ _ w h0),
        bind_ok (clearChain_of_ok b _ _ _ h1),
        bind_err (clearChain_of_fail b _ _ _ hf)]
      rfl
  · have h0 : b.clearFails TableFilter IngressChain = false := hprev 0 (by norm_num)
    have h1 : b.clearFails TableFilter DefaultChain = false := hprev 1 (by norm_num)
    have h2 : b.clearFails TableFilter MainChain = false := hprev 2 (by norm_num)
    have hf : b.clearFails TableFilter EgressMarkChain = true := hfail
    constructor
    · show (resetIPTables b w).1 = _
      rw [resetIPTables_eq,
        bind_ok (clearChain_of_ok b _ _ w h0),
        bind_ok (clearChain_of_ok b _ _ _ h1),
        bind_ok (clearChain_of_ok b _ _ _ h2),
        bind_err (clearChain_of_fail b _ _ _ hf)]
      rfl
    · show (resetIPTables b w).2.2 = _
      rw [resetIPTables_eq,
        bind_ok (clearChain_of_ok b _ _ w h0),
        bind_ok (clearChain_of_ok b _ _ _ h1),
        bind_ok (clearChain_of_ok b _ _ _ h2),
        bind_err (clearChain_of_fail b _ _ _ hf)]
      rfl
  · have h0 : b.clearFails TableFilter IngressChain = false := hprev 0 (by norm_num)
    have h1 : b.clearFails TableFilter DefaultChain = false := hprev 1 (by norm_num)
    have h2 : b.clearFails TableFilter MainChain = false := hprev 2 (by norm_num)
    have h3 : b.clearFails TableFilter EgressMarkChain = false := hprev 3 (by norm_num)
    have hf : b.clearFails TableFilter EgressCustomChain = true := hfail
    constructor
    · show (resetIPTables b w).1 = _
      rw [resetIPTables_eq,
        bind_ok (clearChain_of_ok b _ _ w h0),
        bind_ok (clearChain_of_ok b _ _ _ h1),
        bind_ok (clearChain_of_ok b _ _ _ h2),
        bind_ok (clearChain_of_ok b _ _ _ h3),
        bind_err (clearChain_of_fail b _ _ _ hf)]
      rfl
    · show (resetIPTables b w).2.2 = _
      rw [resetIPTables_eq,
        bind_ok (clearChain_of_ok b _ _ w h0),
        bind_ok (clearChain_of_ok b _ _ _ h1),
        bind_ok (clearChain_of_ok b _ _ _ h2),
        bind_ok (clearChain_of_ok b _ _ _ h3),
        bind_err (clearChain_of_fail b _ _ _ hf)]
      rfl
  · have h0 : b.clearFails TableFilter IngressChain = false := hprev 0 (by norm_num)
    have h1 : b.clearFails TableFilter DefaultChain = false := hprev 1 (by norm_num)
    have h2 : b.clearFails TableFilter MainChain = false := hprev 2 (by norm_num)
    have h3 : b.clearFails TableFilter EgressMarkChain = false := hprev 3 (by norm_num)
    have h4 : b.clearFails TableFilter EgressCustomChain = false := hprev 4 (by norm_num)
    have hf : b.clearFails TableFilter EgressDefaultChain = true := hfail
    constructor
    · show (resetIPTables b w).1 = _
      rw [resetIPTables_eq,
        bind_ok (clearChain_of_ok b _ _ w h0),
        bind_ok (clearChain_of_ok b _ _ _ h1),
        bind_ok (clearChain_of_ok b _ _ _ h2),
        bind_ok (clearChain_of_ok b _ _ _ h3),
        bind_ok (clearChain_of_ok b _ _ _ h4),
        clearChain_of_fail b _ _ _ hf]
      rfl
    · show (resetIPTables b w).2.2 = _
      rw [resetIPTables_eq,
        bind_ok (clearChain_of_ok b _ _ w h0),
        bind_ok (clearChain_of_ok b _ _ _ h1),
        bind_ok (clearChain_of_ok b _ _ _ h2),
        bind_ok (clearChain_of_ok b _ _ _ h3),
        bind_ok (clearChain_of_ok b _ _ _ h4),
        clearChain_of_fail b _ _ _ hf]
      rfl

theorem resetIPSets_flushAbort (b : Backend) (w : World) (ss1 : List String) (s : String)
    (ss2 : List String) (hls : b.listSetsFails = false)
    (heq : (setNames w).filter (hasPfx IpsetNamePrefix) = ss1 ++ s :: ss2)
    (hok : ∀ s' ∈ ss1, b.flushFails s' = false ∧ setLives w s' = true)
    (hf : b.flushFails s = true) :
    M.res (resetIPSets b) w = Except.error (Err.flushErr s) ∧
    M.trace (resetIPSets b) w =
      Op.listSets IpsetNamePrefix :: (ss1.map Op.flushSet ++ [Op.flushSet s]) := by
  have hlist := listSets_of_ok b IpsetNamePrefix w hls
  rw [heq] at hlist
  obtain ⟨w', hw'⟩ := flushAll_firstFail b ss1 s ss2 w hok hf
  constructor
  · show (resetIPSets b w).1 = _
    rw [resetIPSets_eq, bind_ok hlist, bind_err hw']
  · show (resetIPSets b w).2.2 = _
    rw [resetIPSets_eq, bind_ok hlist, bind_err hw']
    rfl

theorem resetIPSets_destroyAbort (b : Backend) (w : World) (ss1 : List String) (s : String)
    (ss2 : List String) (hls : b.listSetsFails = false)
    (heq : (setNames w).filter (hasPfx IpsetNamePrefix) = ss1 ++ s :: ss2)
    (hfl : ∀ s' ∈ ss1 ++ s :: ss2, b.flushFails s' = false ∧ setLives w s' = true)
    (hnd1 : ss1.Nodup) (hns : s ∉ ss1)
    (hdok : ∀ s' ∈ ss1, s' ≠ LocalIpset → b.destroyFails s' = false)
    (hsl : s ≠ LocalIpset) (hdf : b.destroyFails s = true) :
    M.res (resetIPSets b) w = Except.error (Err.destroyErr s) ∧
    M.trace (resetIPSets b) w =
      Op.listSets IpsetNamePrefix ::
        ((ss1 ++ s :: ss2).map Op.flushSet ++
         ((ss1.filter (fun x => x ≠ LocalIpset)).map Op.destroySet ++ [Op.destroySet s])) := by
  have hlist := listSets_of_ok b IpsetNamePrefix w hls
  rw [heq] at hlist
  rcases hfa : flushAll b (ss1 ++ s :: ss2) w with ⟨r1, w1, tr1⟩
  have hfc := flushAll_ok b (ss1 ++ s :: ss2) w hfl
  rw [hfa] at hfc
  obtain ⟨hr1, htr1, hl1⟩ := hfc
  have hr1' : r1 = Except.ok () := hr1
  have htr1' : tr1 = (ss1 ++ s :: ss2).map Op.flushSet := htr1
  have hl1' : ∀ x, setLives w1 x = setLives w x := hl1
  have hfa2 : flushAll b (ss1 ++ s :: ss2) w =
      (Except.ok (), w1, (ss1 ++ s :: ss2).map Op.flushSet) := by
    rw [hfa, hr1', htr1']
  obtain ⟨w', hw'⟩ := destroyAllButLocal_firstFail b ss1 s ss2 w1 hnd1 hns
    (fun s' hs' => (hl1' s').trans (hfl s' (List.mem_append_left _ hs')).2)
    hdok hsl hdf
  constructor
  · show (resetIPSets b w).1 = _
    rw [resetIPSets_eq, bind_ok hlist, bind_ok hfa2, hw']
  · show (resetIPSets b w).2.2 = _
    rw [resetIPSets_eq, bind_ok hlist, bind_ok hfa2, hw']
    rfl

theorem bootstrap_abort (b : Backend) (w : World) (e : Err)
    (h : M.res (resetIPTables b) w = Except.error e) :
    M.res (bootstrap b) w = Except.error e ∧
    M.trace (bootstrap b) w = M.trace (resetIPTables b) w := by
  rcases hrt : resetIPTables b w with ⟨r, w1, tr⟩
  have hr : r = Except.error e := by
    have hh := h
    simp only [M.res, hrt] at hh
    exact hh
  subst hr
  constructor
  · show (bootstrap b w).1 = _
    rw [bootstrap_eq, bind_err hrt]
  · show (bootstrap b w).2.2 = (resetIPTables b w).2.2
    rw [bootstrap_eq, bind_err hrt, hrt]

/-- C7: the Bootstrapper clears exactly the six chains Ingress, Default,
Main, EgressMark, EgressCustom, EgressDefault, in that order (the trace of a
successful `resetIPTables` is exactly those six clear commands); the first
failing clear aborts `resetIPTables` with that clear's error and no
later command is issued; the first failing flush or destroy aborts
`resetIPSets` with that error and no later command is issued; and a
`resetIPTables` failure aborts the whole bootstrap — `resetIPSets` issues
no command at all. -/
theorem bootstrap_clears_in_order_and_aborts_on_failure :
    (∀ (b : Backend) (w : World), M.res (resetIPTables b) w = Except.ok () →
      M.trace (resetIPTables b) w = sixClears) ∧
    (∀ (b : Backend) (w : World) (k : Nat), k < 6 →
      (∀ j, j < k → b.clearFails TableFilter (sixChains.getD j "") = false) →
      b.clearFails TableFilter (sixChains.getD k "") = true →
      M.res (resetIPTables b) w =
        Except.error (Err.clearErr TableFilter (sixChains.getD k "")) ∧
      M.trace (resetIPTables b) w = sixClears.take (k + 1)) ∧
    (∀ (b : Backend) (w : World) (ss1 : List String) (s : String) (ss2 : List String),
      b.listSetsFails = false →
      (setNames w).filter (hasPfx IpsetNamePrefix) = ss1 ++ s :: ss2 →
      (∀ s' ∈ ss1, b.flushFails s' = false ∧ setLives w s' = true) →
      b.flushFails s = true →
      M.res (resetIPSets b) w = Except.error (Err.flushErr s) ∧
      M.trace (resetIPSets b) w =
        Op.listSets IpsetNamePrefix :: (ss1.map Op.flushSet ++ [Op.flushSet s])) ∧
    (∀ (b : Backend) (w : World) (ss1 : List String) (s : String) (ss2 : List String),
      b.listSetsFails = false →
      (setNames w).filter (hasPfx IpsetNamePrefix) = ss1 ++ s :: ss2 →
      (∀ s' ∈ ss1 ++ s :: ss2, b.flushFails s' = false ∧ setLives w s' = true) →
      ss1.Nodup → s ∉ ss1 →
      (∀ s' ∈ ss1, s' ≠ LocalIpset → b.destroyFails s' = false) →
      s ≠ LocalIpset → b.destroyFails s = true →
      M.res (resetIPSets b) w = Except.error (Err.destroyErr s) ∧
      M.trace (resetIPSets b) w =
        Op.listSets IpsetNamePrefix ::
          ((ss1 ++ s :: ss2).map Op.flushSet ++
           ((ss1.filter (fun x => x ≠ LocalIpset)).map Op.destroySet ++ [Op.destroySet s]))) ∧
    (∀ (b : Backend) (w : World) (e : Err), M.res (resetIPTables b) w = Except.error e →
      M.res (bootstrap b) w = Except.error e ∧
      M.trace (bootstrap b) w = M.trace (resetIPTables b) w) :=
  ⟨resetIPTables_ok_trace, resetIPTables_firstFail, resetIPSets_flushAbort,
   resetIPSets_destroyAbort, bootstrap_abort⟩

/-- Witness for C7 at concrete inputs: a clean run clears exactly the six
chains in order; a backend whose Main-chain clear fails stops after three
clears with that error, and the whole bootstrap then issues no set command;
a failing flush of the second tagged set stops right after it; a failing
destroy of the second tagged set stops right after it. -/
theorem bootstrap_clears_in_order_and_aborts_on_failure_witness :
    M.trace (resetIPTables cleanBackend) { chains := [], sets := [] } = sixClears ∧
    (M.res (resetIPTables
        { cleanBackend with clearFails := fun _ c => c == MainChain })
        { chains := [], sets := [] } =
      Except.error (Err.clearErr TableFilter (sixChains.getD 2 "")) ∧
     M.trace (resetIPTables
        { cleanBackend with clearFails := fun _ c => c == MainChain })
        { chains := [], sets := [] } = sixClears.take 3) ∧
    (M.res (resetIPSets { cleanBackend with flushFails := fun s => s == "weave-b" })
        { chains := [], sets := [("weave-a", []), ("weave-b", [])] } =
      Except.error (Err.flushErr "weave-b") ∧
     M.trace (resetIPSets { cleanBackend with flushFails := fun s => s == "weave-b" })
        { chains := [], sets := [("weave-a", []), ("weave-b", [])] } =
      Op.listSets IpsetNamePrefix ::
        (["weave-a"].map Op.flushSet ++ [Op.flushSet "weave-b"])) ∧
    (M.res (resetIPSets { cleanBackend with destroyFails := fun s => s == "weave-b" })
        { chains := [], sets := [("weave-a", []), ("weave-b", [])] } =
      Except.error (Err.destroyErr "weave-b") ∧
     M.trace (resetIPSets { cleanBackend with destroyFails := fun s => s == "weave-b" })
        { chains := [], sets := [("weave-a", []), ("weave-b", [])] } =
      Op.listSets IpsetNamePrefix ::
        ((["weave-a", "weave-b"]).map Op.flushSet ++
         ((["weave-a"].filter (fun x => x ≠ LocalIpset)).map Op.destroySet ++
          [Op.destroySet "weave-b"]))) ∧
    (M.res (bootstrap { cleanBackend with clearFails := fun _ c => c == MainChain })
        { chains := [], sets := [] } =
      Except.error (Err.clearErr TableFilter MainChain) ∧
     M.trace (bootstrap { cleanBackend with clearFails := fun _ c => c == MainChain })
        { chains := [], sets := [] } =
      M.trace (resetIPTables { cleanBackend with clearFails := fun _ c => c == MainChain })
        { chains := [], sets := [] }) :=
  ⟨bootstrap_clears_in_order_and_aborts_on_failure.1 cleanBackend
      { chains := [], sets := [] } (by decide),
   bootstrap_clears_in_order_and_aborts_on_failure.2.1
      { cleanBackend with clearFails := fun _ c => c == MainChain }
      { chains := [], sets := [] } 2 (by decide) (by decide) (by decide),
   bootstrap_clears_in_order_and_aborts_on_failure.2.2.1
      { cleanBackend with flushFails := fun s => s == "weave-b" }
      { chains := [], sets := [("weave-a", []), ("weave-b", [])] }
      ["weave-a"] "weave-b" [] (by decide) (by decide) (by decide) (by decide),
   bootstrap_clears_in_order_and_aborts_on_failure.2.2.2.1
      { cleanBackend with destroyFails := fun s => s == "weave-b" }
      { chains := [], sets := [("weave-a", []), ("weave-b", [])] }
      ["weave-a"] "weave-b" [] (by decide) (by decide) (by decide) (by decide)
      (by decide) (by decide) (by decide) (by decide),
   bootstrap_clears_in_order_and_aborts_on_failure.2.2.2.2
      { cleanBackend with clearFails := fun _ c => c == MainChain }
      { chains := [], sets := [] } (Err.clearErr TableFilter MainChain) (by decide)⟩

end WeaveNPC
